import Mathlib

/-!
Verification of the ICO encoder in `src/index.ts`.

Node `Buffer`s are modelled as a byte-content function `Nat → Nat` together
with a declared size.  JavaScript 32-bit integer results (such as the value
`b | (g << 8) | (r << 16) | (a << 24)` passed to `writeInt32LE`) are modelled
by their unsigned 32-bit two's-complement bit pattern, i.e. reduction
modulo 2^32; `writeInt32LE`/`writeUInt32LE` both store that pattern's four
little-endian bytes.  The `for` loops of `getDib` become folds over
`List.range`, and the `for … of` loop of `imagesToIco` becomes structural
recursion over the image list.  The external `sharp` pipeline is modelled as
a free term algebra (`Sharp`), with an oracle `raster` supplying the decoded
RGBA8 buffer and metadata that `img.raw().toBuffer()` would return.
-/

namespace SharpIco

/-- Byte content of a Node buffer: the byte stored at each index. -/
abbrev Buf := Nat → Nat

/-- A Node `Buffer`: a declared byte length plus byte contents. -/
structure JsBuffer where
  size : Nat
  data : Buf

/-- `Buffer.alloc(n)`: zero-filled buffer of length `n`. -/
def bufAlloc (n : Nat) : JsBuffer := ⟨n, fun _ => 0⟩

/-- `buf.writeUInt8(v, pos)`. -/
def writeUInt8 (b : JsBuffer) (v pos : Nat) : JsBuffer :=
  ⟨b.size, fun i => if i = pos then v else b.data i⟩

/-- `buf.readUInt8(pos)`. -/
def readUInt8 (b : JsBuffer) (pos : Nat) : Nat := b.data pos

/-- `buf.writeUInt16LE(v, pos)`: two little-endian bytes. -/
def writeUInt16LE (b : JsBuffer) (v pos : Nat) : JsBuffer :=
  writeUInt8 (writeUInt8 b (v % 256) pos) ((v >>> 8) % 256) (pos + 1)

/-- `buf.writeUInt32LE(v, pos)`: four little-endian bytes. -/
def writeUInt32LE (b : JsBuffer) (v pos : Nat) : JsBuffer :=
  writeUInt8 (writeUInt8 (writeUInt8 (writeUInt8 b (v % 256) pos)
    ((v >>> 8) % 256) (pos + 1)) ((v >>> 16) % 256) (pos + 2))
    ((v >>> 24) % 256) (pos + 3)

/-- `buf.writeInt32LE(v, pos)`, where `v` is already the unsigned 32-bit
two's-complement bit pattern of the JavaScript signed value. -/
def writeInt32LE (b : JsBuffer) (v pos : Nat) : JsBuffer := writeUInt32LE b v pos

/-- Reduction modulo 2^32: the bit pattern of a JavaScript 32-bit result. -/
def jsToUint32 (n : Nat) : Nat := n % 4294967296

/-- sharp's `OutputInfo` (the fields this program reads). -/
structure OutputInfo where
  width : Nat
  height : Nat
  size : Nat
  format : String

/-- An RGBA pixel as returned by `getColorPixel`. -/
structure Pixel where
  r : Nat
  g : Nat
  b : Nat
  a : Nat

/-- `pxPos` of `getColorPixel`: `(y * width + x) * 4`. -/
def pxPos (x y width : Nat) : Nat := (y * width + x) * 4

/-- `getColorPixel(buffer, x, y, width)` from `src/index.ts`. -/
def getColorPixel (buffer : Buf) (x y width : Nat) : Pixel :=
  { r := buffer (pxPos x y width + 0)
    g := buffer (pxPos x y width + 1)
    b := buffer (pxPos x y width + 2)
    a := buffer (pxPos x y width + 3) }

/-- `getRowStride(width)` from `src/index.ts`. -/
def getRowStride (width : Nat) : Nat :=
  if width % 32 = 0 then width / 8 else 4 * (width / 32 + 1)

/-- The packed color `b | (g << 8) | (r << 16) | (a << 24)` of the xor-map
loop, as its unsigned 32-bit pattern. -/
def newColorOf (p : Pixel) : Nat :=
  jsToUint32 (p.b ||| (p.g <<< 8) ||| (p.r <<< 16) ||| (p.a <<< 24))

/-- The xor-map write position `((height - y - 1) * width + x) * 4`. -/
def xorPos (height y width x : Nat) : Nat := ((height - y - 1) * width + x) * 4

/-- One iteration of the xor-map double loop of `getDib`. -/
def xorStep (data : Buf) (width height : Nat) (b : JsBuffer) (y x : Nat) : JsBuffer :=
  writeInt32LE b (newColorOf (getColorPixel data x y width)) (xorPos height y width x)

/-- `width32` of the and-map loop: `width % 32 === 0 ? width/32 : width/32 + 1`. -/
def width32Of (width : Nat) : Nat :=
  if width % 32 = 0 then width / 32 else width / 32 + 1

/-- `bitNum` of the and-map loop: `(height - y - 1) * width + x`. -/
def andBitNum (height y width x : Nat) : Nat := (height - y - 1) * width + x

/-- The and-map byte position
`size + line * width32 * 4 + floor(offset / 8)` with
`line = floor(bitNum / width)` and `offset = bitNum % width`. -/
def andPos (size width height y x : Nat) : Nat :=
  size + andBitNum height y width x / width * width32Of width * 4
    + andBitNum height y width x % width / 8

/-- The byte `bitVal << (7 - offset % 8)` OR-ed into the and map for one
pixel, where `bitVal = (a > 0 ? 0 : 1) & 1`. -/
def andMaskVal (data : Buf) (width height y x : Nat) : Nat :=
  ((if (getColorPixel data x y width).a > 0 then 0 else 1) &&& 1)
    <<< (7 - andBitNum height y width x % width % 8)

/-- One iteration of the and-map double loop of `getDib`. -/
def andStep (data : Buf) (size width height : Nat) (b : JsBuffer) (y x : Nat) : JsBuffer :=
  writeUInt8 b
    (readUInt8 b (andPos size width height y x) ||| andMaskVal data width height y x)
    (andPos size width height y x)

/-- `getDib(data, info)` from `src/index.ts`. -/
def getDib (data : Buf) (info : OutputInfo) : JsBuffer :=
  let size := info.size
  let width := info.width
  let height := width
  let andMapRow := getRowStride width
  let andMapSize := andMapRow * height
  let buf := bufAlloc (size + andMapSize)
  let buf := (List.range height).foldl
    (fun b y => (List.range width).foldl (fun b x => xorStep data width height b y x) b) buf
  (List.range height).foldl
    (fun b y => (List.range width).foldl (fun b x => andStep data size width height b y x) b) buf

/-- `getHeader(numOfImages)` from `src/index.ts`. -/
def getHeader (numOfImages : Nat) : JsBuffer :=
  writeUInt16LE (writeUInt16LE (writeUInt16LE (bufAlloc 6) 0 0) 1 2) numOfImages 4

/-- `getDir(info, offset)` from `src/index.ts`. -/
def getDir (info : OutputInfo) (offset : Nat) : JsBuffer :=
  let size := info.size + 40
  let width := if info.width ≥ 256 then 0 else info.width
  let height := width
  let bpp := 32
  writeUInt32LE (writeUInt32LE (writeUInt16LE (writeUInt16LE
    (writeUInt8 (writeUInt8 (writeUInt8 (writeUInt8 (bufAlloc 16) width 0) height 1) 0 2) 0 3)
    1 4) bpp 6) size 8) offset 12

/-- `getBmpInfoHeader(info)` from `src/index.ts`. -/
def getBmpInfoHeader (info : OutputInfo) : JsBuffer :=
  let width := info.width
  let height := width * 2
  let bpp := 32
  writeUInt32LE (writeUInt32LE (writeInt32LE (writeInt32LE (writeUInt32LE (writeUInt32LE
    (writeUInt16LE (writeUInt16LE (writeInt32LE (writeInt32LE (writeUInt32LE (bufAlloc 40)
    40 0) width 4) height 8) 1 12) bpp 14) 0 16) 0 20) 0 24) 0 28) 0 32) 0 36

/-- Byte contents of the concatenation of a list of buffers. -/
def concatData : List JsBuffer → Buf
  | [] => fun _ => 0
  | b :: rest => fun i => if i < b.size then b.data i else concatData rest (i - b.size)

/-- `Buffer.concat(list, totalLength)`: truncates or zero-pads the
concatenated contents to the declared total length. -/
def bufferConcat (l : List JsBuffer) (totalLength : Nat) : JsBuffer :=
  ⟨totalLength, fun i => if i < totalLength then concatData l i else 0⟩

/-- The `for … of` loop of `imagesToIco`, threading `len` and `offset`;
returns the directory entries, the (info-header, dib) body parts in order,
and the final `len`.  Each image is the pair of the `data` buffer and the
`info` returned by `img.raw().toBuffer()`. -/
def icoLoop (images : List (Buf × OutputInfo)) (len offset : Nat) :
    List JsBuffer × List JsBuffer × Nat :=
  match images with
  | [] => ([], [], len)
  | (data, info) :: rest =>
    let dir := getDir info offset
    let bmpInfoHeader := getBmpInfoHeader info
    let dib := getDib data info
    let r := icoLoop rest (len + dir.size + bmpInfoHeader.size + dib.size)
      (offset + bmpInfoHeader.size + dib.size)
    (dir :: r.1, bmpInfoHeader :: dib :: r.2.1, r.2.2)

/-- `imagesToIco(images)` from `src/index.ts`, with each awaited
`img.raw().toBuffer()` result supplied as a `(data, info)` pair. -/
def imagesToIco (images : List (Buf × OutputInfo)) : JsBuffer :=
  let header := getHeader images.length
  let r := icoLoop images header.size (header.size + 16 * images.length)
  bufferConcat ((header :: r.1) ++ r.2.1) r.2.2

/-- The offsets handed to `getDir` for each image in turn, starting from the
initial offset; each step advances by the info-header length plus the dib
length, exactly as the loop of `imagesToIco` advances `offset`. -/
def icoOffsets (images : List (Buf × OutputInfo)) (offset : Nat) : List Nat :=
  match images with
  | [] => []
  | (data, info) :: rest =>
    offset :: icoOffsets rest (offset + (getBmpInfoHeader info).size + (getDib data info).size)

/-- The sharp pipeline as a free term algebra: a source image plus the
recorded `resize` calls. -/
inductive Sharp where
  | src (tag : Nat) : Sharp
  | resize (img : Sharp) (w h : Nat) (kernel : String) : Sharp
deriving DecidableEq

/-- `image.clone()`: yields a pipeline with the same recorded operations. -/
def Sharp.clone (s : Sharp) : Sharp := s

/-- `sizeList` from `src/index.ts`. -/
def sizeList : List Nat := [48, 32, 16]

/-- The kernel option `'cubic'` passed to every `resize` call. -/
def cubicKernel : String := "cubic"

/-- The module-level error constant `err` from `src/index.ts`. -/
def err : String := "Please give me a square PNG image."

/-- The validation and image-list construction of `toIco`: the check
`info.format !== 'png' || size !== info.height`, the conditional resample to
256, and `resizedImages.concat(image)`. -/
def toIcoImages (image : Sharp) (info : OutputInfo) : Except String (List Sharp) :=
  let size := info.width
  if info.format ≠ "png" ∨ size ≠ info.height then
    Except.error err
  else
    let image := if size ≠ 256 then Sharp.resize image 256 256 cubicKernel else image
    let resizedImages := sizeList.map fun targetSize =>
      Sharp.resize (Sharp.clone image) targetSize targetSize cubicKernel
    Except.ok (resizedImages ++ [image])

/-- `toIco(image)` from `src/index.ts`; `info` is the metadata returned by
the first `image.toBuffer`, and `raster` is the external oracle giving each
pipeline's decoded RGBA8 buffer and info. -/
def toIco (raster : Sharp → Buf × OutputInfo) (image : Sharp) (info : OutputInfo) :
    Except String JsBuffer :=
  match toIcoImages image info with
  | Except.error e => Except.error e
  | Except.ok imgs => Except.ok (imagesToIco (imgs.map raster))

/-! ### Generic lemmas about folds of buffer writes -/

@[simp] theorem writeUInt8_size (b : JsBuffer) (v pos : Nat) :
    (writeUInt8 b v pos).size = b.size := rfl

@[simp] theorem writeUInt8_data (b : JsBuffer) (v pos i : Nat) :
    (writeUInt8 b v pos).data i = if i = pos then v else b.data i := rfl

@[simp] theorem bufAlloc_size (n : Nat) : (bufAlloc n).size = n := rfl

@[simp] theorem bufAlloc_data (n i : Nat) : (bufAlloc n).data i = 0 := rfl

theorem foldl_size {α : Type} (f : JsBuffer → α → JsBuffer) (l : List α)
    (hf : ∀ b j, (f b j).size = b.size) (b : JsBuffer) :
    (l.foldl f b).size = b.size := by
  induction l generalizing b with
  | nil => rfl
  | cons j t ih => rw [List.foldl_cons, ih, hf]

theorem foldl_range_frame (f : JsBuffer → Nat → JsBuffer) (n i : Nat)
    (hf : ∀ b j, j < n → (f b j).data i = b.data i) (b : JsBuffer) :
    ((List.range n).foldl f b).data i = b.data i := by
  induction n with
  | zero => rfl
  | succ n ih =>
    rw [List.range_succ, List.foldl_append, List.foldl_cons, List.foldl_nil,
      hf _ n (by omega)]
    exact ih (fun b j hj => hf b j (by omega))

theorem foldl_range_last (f : JsBuffer → Nat → JsBuffer) (n i j v : Nat)
    (hj : j < n)
    (hval : ∀ b, (f b j).data i = v)
    (hframe : ∀ b j', j' < n → j' ≠ j → (f b j').data i = b.data i)
    (b : JsBuffer) :
    ((List.range n).foldl f b).data i = v := by
  induction n with
  | zero => omega
  | succ n ih =>
    rw [List.range_succ, List.foldl_append, List.foldl_cons, List.foldl_nil]
    by_cases h : j = n
    · subst h; exact hval _
    · rw [hframe _ n (by omega) (by omega)]
      exact ih (by omega) (fun b j' h1 h2 => hframe b j' (by omega) h2)

theorem foldl_range_or_testBit (f : JsBuffer → Nat → JsBuffer) (n : Nat)
    (posOf maskOf : Nat → Nat)
    (hstep : ∀ b j, j < n →
      f b j = writeUInt8 b (readUInt8 b (posOf j) ||| maskOf j) (posOf j))
    (b : JsBuffer) (p k : Nat) :
    (((List.range n).foldl f b).data p).testBit k
      = ((b.data p).testBit k
        || (List.range n).any fun j => decide (posOf j = p) && (maskOf j).testBit k) := by
  induction n with
  | zero => simp
  | succ n ih =>
    rw [List.range_succ, List.foldl_append, List.foldl_cons, List.foldl_nil,
      List.any_append, hstep _ n (by omega)]
    simp only [List.any_cons, List.any_nil, Bool.or_false, writeUInt8_data, readUInt8]
    by_cases h : p = posOf n
    · rw [if_pos h, ← h, Nat.testBit_or, ih (fun b j hj => hstep b j (by omega))]
      simp [Bool.or_assoc]
    · rw [if_neg h, ih (fun b j hj => hstep b j (by omega))]
      have hd : decide (posOf n = p) = false := by simp; omega
      rw [hd, Bool.false_and, Bool.or_false]

/-! ### Little-endian byte packing -/

theorem lor_mul_pow_eq_add (x y n : Nat) (h : x < 2 ^ n) :
    x ||| y * 2 ^ n = x + y * 2 ^ n := by
  rw [← Nat.shiftLeft_eq y n]
  apply Nat.eq_of_testBit_eq
  intro i
  rcases Nat.lt_or_ge i n with hi | hi
  · rw [Nat.testBit_or, Nat.testBit_shiftLeft]
    have h1 : decide (i ≥ n) = false := by simp; omega
    rw [h1, Bool.false_and, Bool.or_false]
    have h2 : (x + y <<< n) % 2 ^ n = x := by
      rw [Nat.shiftLeft_eq, Nat.add_mul_mod_self_right, Nat.mod_eq_of_lt h]
    have h3 : ((x + y <<< n) % 2 ^ n).testBit i = (x + y <<< n).testBit i := by
      rw [Nat.testBit_mod_two_pow]
      simp [hi]
    rw [← h3, h2]
  · rw [Nat.testBit_or, Nat.testBit_shiftLeft]
    have h1 : x.testBit i = false :=
      Nat.testBit_lt_two_pow (lt_of_lt_of_le h (Nat.pow_le_pow_right (by omega) hi))
    have h2 : decide (i ≥ n) = true := by simp [hi]
    rw [h1, h2, Bool.false_or, Bool.true_and]
    have h3 : (x + y <<< n) >>> n = y := by
      rw [Nat.shiftLeft_eq, Nat.shiftRight_eq_div_pow,
        Nat.add_mul_div_right _ _ (Nat.pos_pow_of_pos n (by omega)),
        Nat.div_eq_of_lt h, Nat.zero_add]
    have h4 : (x + y <<< n).testBit i = ((x + y <<< n) >>> n).testBit (i - n) := by
      rw [Nat.testBit_shiftRight]
      congr 1
      omega
    rw [h4, h3]

theorem lor4_eq {b g r a : Nat} (hb : b < 256) (hg : g < 256) (hr : r < 256)
    (ha : a < 256) :
    b ||| (g <<< 8) ||| (r <<< 16) ||| (a <<< 24)
      = b + g * 256 + r * 65536 + a * 16777216 := by
  rw [Nat.shiftLeft_eq g 8, Nat.shiftLeft_eq r 16, Nat.shiftLeft_eq a 24]
  rw [lor_mul_pow_eq_add b g 8 (lt_of_lt_of_le hb (by norm_num))]
  rw [lor_mul_pow_eq_add _ r 16 (by norm_num; omega)]
  rw [lor_mul_pow_eq_add _ a 24 (by norm_num; omega)]
  norm_num

theorem newColorOf_bytes {p : Pixel} (hr : p.r < 256) (hg : p.g < 256)
    (hb : p.b < 256) (ha : p.a < 256) :
    newColorOf p % 256 = p.b ∧ (newColorOf p >>> 8) % 256 = p.g
    ∧ (newColorOf p >>> 16) % 256 = p.r ∧ (newColorOf p >>> 24) % 256 = p.a := by
  unfold newColorOf jsToUint32
  have hlt : p.b + p.g * 256 + p.r * 65536 + p.a * 16777216 < 4294967296 := by omega
  rw [lor4_eq hb hg hr ha, Nat.mod_eq_of_lt hlt,
    Nat.shiftRight_eq_div_pow, Nat.shiftRight_eq_div_pow, Nat.shiftRight_eq_div_pow]
  have e8 : (2 : Nat) ^ 8 = 256 := by norm_num
  have e16 : (2 : Nat) ^ 16 = 65536 := by norm_num
  have e24 : (2 : Nat) ^ 24 = 16777216 := by norm_num
  rw [e8, e16, e24]
  omega

/-! ### Arithmetic helpers about positions -/

theorem rowBase_le {R W : Nat} (hR : R < W) : R * W + W ≤ W * W := by
  have h1 : (R + 1) * W ≤ W * W := Nat.mul_le_mul_right W hR
  rw [Nat.succ_mul] at h1
  omega

theorem mul_row_le {R R' W : Nat} (h : R < R') : R * W + W ≤ R' * W := by
  have h1 : (R + 1) * W ≤ R' * W := Nat.mul_le_mul_right W h
  rw [Nat.succ_mul] at h1
  omega

theorem xorPos_add_lt {W x y k : Nat} (hx : x < W) (hy : y < W) (hk : k ≤ 3) :
    xorPos W y W x + k < W * W * 4 := by
  unfold xorPos
  have h1 : (W - y - 1) * W + W ≤ W * W := rowBase_le (by omega)
  omega

theorem width32_four (w : Nat) : width32Of w * 4 = getRowStride w := by
  unfold width32Of getRowStride
  split <;> omega

theorem div8_lt_stride {x w : Nat} (hx : x < w) : x / 8 < getRowStride w := by
  unfold getRowStride
  split <;> omega

theorem stride_pos_inj {S L L' r r' : Nat} (hr : r < S) (hr' : r' < S)
    (he : L * S + r = L' * S + r') : L = L' ∧ r = r' := by
  have hS : 0 < S := by omega
  have h1 : (L * S + r) / S = L := by
    rw [Nat.mul_comm L S, Nat.mul_add_div hS, Nat.div_eq_of_lt hr]
    omega
  have h2 : (L' * S + r') / S = L' := by
    rw [Nat.mul_comm L' S, Nat.mul_add_div hS, Nat.div_eq_of_lt hr']
    omega

  have hL : L = L' := by rw [← h1, ← h2, he]
  subst hL
  constructor
  · rfl
  · omega

theorem andBitNum_div {h y w x : Nat} (hx : x < w) :
    andBitNum h y w x / w = h - y - 1 := by
  unfold andBitNum
  rw [Nat.mul_comm, Nat.mul_add_div (by omega), Nat.div_eq_of_lt hx]
  omega

theorem andBitNum_mod {h y w x : Nat} (hx : x < w) :
    andBitNum h y w x % w = x := by
  unfold andBitNum
  rw [Nat.mul_comm, Nat.mul_add_mod, Nat.mod_eq_of_lt hx]

theorem andPos_eq {size w h y x : Nat} (hx : x < w) :
    andPos size w h y x = size + (h - y - 1) * getRowStride w + x / 8 := by
  unfold andPos
  rw [andBitNum_div hx, andBitNum_mod hx, Nat.mul_assoc, width32_four]

theorem andPos_ge (size w h y x : Nat) : size ≤ andPos size w h y x := by
  unfold andPos
  omega

/-! ### The xor (color) map of `getDib` -/

theorem xorStep_frame (data : Buf) (w h : Nat) (b : JsBuffer) (y x i : Nat)
    (hi : i < xorPos h y w x ∨ xorPos h y w x + 3 < i) :
    (xorStep data w h b y x).data i = b.data i := by
  simp only [xorStep, writeInt32LE, writeUInt32LE, writeUInt8_data]
  rw [if_neg (by omega), if_neg (by omega), if_neg (by omega), if_neg (by omega)]

theorem xorStep_bytes (data : Buf) (w h : Nat) (b : JsBuffer) (y x : Nat) :
    (xorStep data w h b y x).data (xorPos h y w x)
        = newColorOf (getColorPixel data x y w) % 256
    ∧ (xorStep data w h b y x).data (xorPos h y w x + 1)
        = (newColorOf (getColorPixel data x y w) >>> 8) % 256
    ∧ (xorStep data w h b y x).data (xorPos h y w x + 2)
        = (newColorOf (getColorPixel data x y w) >>> 16) % 256
    ∧ (xorStep data w h b y x).data (xorPos h y w x + 3)
        = (newColorOf (getColorPixel data x y w) >>> 24) % 256 := by
  refine ⟨?_, ?_, ?_, ?_⟩ <;>
    simp only [xorStep, writeInt32LE, writeUInt32LE, writeUInt8_data] <;>
    simp

theorem xor_row_byte (data : Buf) (w h y x k : Nat) (hx : x < w) (hk : k ≤ 3)
    (b : JsBuffer) :
    ((List.range w).foldl (fun b x => xorStep data w h b y x) b).data
        (xorPos h y w x + k)
      = (newColorOf (getColorPixel data x y w) >>> (8 * k)) % 256 := by
  have hframe : ∀ (b : JsBuffer) (j' : Nat), j' < w → j' ≠ x →
      (xorStep data w h b y j').data (xorPos h y w x + k) = b.data (xorPos h y w x + k) := by
    intro b j' h1 h2
    apply xorStep_frame
    dsimp only [xorPos]
    omega
  interval_cases k
  · exact foldl_range_last _ w _ x _ hx
      (fun b => (xorStep_bytes data w h b y x).1) hframe b
  · exact foldl_range_last _ w _ x _ hx
      (fun b => (xorStep_bytes data w h b y x).2.1) hframe b
  · exact foldl_range_last _ w _ x _ hx
      (fun b => (xorStep_bytes data w h b y x).2.2.1) hframe b
  · exact foldl_range_last _ w _ x _ hx
      (fun b => (xorStep_bytes data w h b y x).2.2.2) hframe b

theorem xor_other_row_frame (data : Buf) (w h y y' x k : Nat) (hx : x < w) (hk : k ≤ 3)
    (hne : h - y - 1 ≠ h - y' - 1) (b : JsBuffer) :
    ((List.range w).foldl (fun b x => xorStep data w h b y' x) b).data
        (xorPos h y w x + k)
      = b.data (xorPos h y w x + k) := by
  apply foldl_range_frame
  intro b2 x' hx'
  apply xorStep_frame
  dsimp only [xorPos]
  rcases Nat.lt_or_ge (h - y - 1) (h - y' - 1) with hlt | hge
  · have hm := @mul_row_le (h - y - 1) (h - y' - 1) w hlt
    omega
  · have hlt' : h - y' - 1 < h - y - 1 := by omega
    have hm := @mul_row_le (h - y' - 1) (h - y - 1) w hlt'
    omega

theorem getDib_xor_fold_byte (data : Buf) (w x y k : Nat)
    (hx : x < w) (hy : y < w) (hk : k ≤ 3) (b : JsBuffer) :
    ((List.range w).foldl
        (fun b y => (List.range w).foldl (fun b x => xorStep data w w b y x) b)
        b).data (xorPos w y w x + k)
      = (newColorOf (getColorPixel data x y w) >>> (8 * k)) % 256 := by
  apply foldl_range_last _ w _ y _ hy
  · intro b2
    exact xor_row_byte data w w y x k hx hk b2
  · intro b2 y' h1 h2
    exact xor_other_row_frame data w w y y' x k hx hk (by omega) b2

theorem and_fold_frame (data : Buf) (size w h n i : Nat) (hi : i < size)
    (b : JsBuffer) :
    ((List.range n).foldl
        (fun b y => (List.range w).foldl (fun b x => andStep data size w h b y x) b)
        b).data i = b.data i := by
  apply foldl_range_frame
  intro b2 y hy2
  apply foldl_range_frame
  intro b3 x hx3
  simp only [andStep, writeUInt8_data]
  rw [if_neg]
  have := andPos_ge size w h y x
  omega

theorem getDib_xor_byte (data : Buf) (info : OutputInfo) (W x y k : Nat)
    (hw : info.width = W) (hs : info.size = W * W * 4)
    (hx : x < W) (hy : y < W) (hk : k ≤ 3) :
    (getDib data info).data (xorPos W y W x + k)
      = (newColorOf (getColorPixel data x y W) >>> (8 * k)) % 256 := by
  simp only [getDib, hw, hs]
  rw [and_fold_frame data (W * W * 4) W W W (xorPos W y W x + k)
    (xorPos_add_lt hx hy hk)]
  exact getDib_xor_fold_byte data W x y k hx hy hk _

/-- The 1×1 RGBA example buffer with (r, g, b, a) = (10, 20, 30, 255). -/
def ex1Data : Buf := fun i =>
  if i = 0 then 10 else if i = 1 then 20 else if i = 2 then 30
  else if i = 3 then 255 else 0

/-- Metadata of the 1×1 example image. -/
def ex1Info : OutputInfo := { width := 1, height := 1, size := 4, format := "png" }

/-- Metadata of a 1×1 fully transparent example image. -/
def ex1TranspInfo : OutputInfo := { width := 1, height := 1, size := 4, format := "png" }

/-- Metadata of a 48×48 example image. -/
def ex48Info : OutputInfo := { width := 48, height := 48, size := 9216, format := "png" }

/-- Metadata of a 256×256 example image. -/
def ex256Info : OutputInfo := { width := 256, height := 256, size := 262144, format := "png" }

/-- Metadata of a 10×20 non-square example input. -/
def ex10x20Info : OutputInfo := { width := 10, height := 20, size := 800, format := "png" }

theorem ex1Data_lt (i : Nat) : ex1Data i < 256 := by
  unfold ex1Data
  split_ifs <;> omega

/-- C1: for every square RGBA8 input of width `W`, the xor-map writer of
`getDib` stores, for the pixel at column `x` and row `y`, the byte sequence
`[b, g, r, a]` (the little-endian bytes of `b OR g<<8 OR r<<16 OR a<<24`,
for every alpha value) at output byte offset `((W-1-y)*W + x) * 4`; in
particular the 1×1 image with (r, g, b, a) = (10, 20, 30, 255) yields first
output bytes `[30, 20, 10, 255]`. -/
theorem c1_color_map_bytes :
    (∀ (W x y : Nat) (data : Buf) (info : OutputInfo),
      info.width = W → info.size = W * W * 4 → x < W → y < W →
      (∀ i, data i < 256) →
      (getDib data info).data (((W - 1 - y) * W + x) * 4) = (getColorPixel data x y W).b
      ∧ (getDib data info).data (((W - 1 - y) * W + x) * 4 + 1) = (getColorPixel data x y W).g
      ∧ (getDib data info).data (((W - 1 - y) * W + x) * 4 + 2) = (getColorPixel data x y W).r
      ∧ (getDib data info).data (((W - 1 - y) * W + x) * 4 + 3) = (getColorPixel data x y W).a)
    ∧ ((getDib ex1Data ex1Info).data 0 = 30 ∧ (getDib ex1Data ex1Info).data 1 = 20
      ∧ (getDib ex1Data ex1Info).data 2 = 10 ∧ (getDib ex1Data ex1Info).data 3 = 255) := by
  have main : ∀ (W x y : Nat) (data : Buf) (info : OutputInfo),
      info.width = W → info.size = W * W * 4 → x < W → y < W →
      (∀ i, data i < 256) →
      (getDib data info).data (((W - 1 - y) * W + x) * 4) = (getColorPixel data x y W).b
      ∧ (getDib data info).data (((W - 1 - y) * W + x) * 4 + 1) = (getColorPixel data x y W).g
      ∧ (getDib data info).data (((W - 1 - y) * W + x) * 4 + 2) = (getColorPixel data x y W).r
      ∧ (getDib data info).data (((W - 1 - y) * W + x) * 4 + 3) = (getColorPixel data x y W).a := by
    intro W x y data info hw hs hx hy hdata
    have hb := newColorOf_bytes (p := getColorPixel data x y W)
      (hdata _) (hdata _) (hdata _) (hdata _)
    have hpos : W - 1 - y = W - y - 1 := by omega
    have hxp : ∀ k : Nat, ((W - 1 - y) * W + x) * 4 + k = xorPos W y W x + k := by
      intro k
      unfold xorPos
      rw [hpos]
    have e0 := getDib_xor_byte data info W x y 0 hw hs hx hy (by omega)
    have e1 := getDib_xor_byte data info W x y 1 hw hs hx hy (by omega)
    have e2 := getDib_xor_byte data info W x y 2 hw hs hx hy (by omega)
    have e3 := getDib_xor_byte data info W x y 3 hw hs hx hy (by omega)
    refine ⟨?_, ?_, ?_, ?_⟩
    · have h' := hxp 0
      rw [Nat.add_zero] at h'
      rw [h']
      rw [show xorPos W y W x = xorPos W y W x + 0 from by omega, e0]
      simpa using hb.1
    · rw [hxp 1, e1]
      simpa using hb.2.1
    · rw [hxp 2, e2]
      simpa using hb.2.2.1
    · rw [hxp 3, e3]
      simpa using hb.2.2.2
  refine ⟨main, ?_, ?_, ?_, ?_⟩
  · exact (main 1 0 0 ex1Data ex1Info rfl rfl (by decide) (by decide) ex1Data_lt).1
  · exact (main 1 0 0 ex1Data ex1Info rfl rfl (by decide) (by decide) ex1Data_lt).2.1
  · exact (main 1 0 0 ex1Data ex1Info rfl rfl (by decide) (by decide) ex1Data_lt).2.2.1
  · exact (main 1 0 0 ex1Data ex1Info rfl rfl (by decide) (by decide) ex1Data_lt).2.2.2

/-- Witness for C1 at the concrete 1×1 example input. -/
theorem c1_color_map_bytes_witness :
    (0 : Nat) < 1 ∧ (∀ i, ex1Data i < 256)
    ∧ (getDib ex1Data ex1Info).data 0 = (getColorPixel ex1Data 0 0 1).b :=
  ⟨Nat.zero_lt_one, ex1Data_lt,
    (c1_color_map_bytes.1 1 0 0 ex1Data ex1Info rfl rfl Nat.zero_lt_one
      Nat.zero_lt_one ex1Data_lt).1⟩

/-! ### The and (transparency) mask of `getDib` -/

theorem and_rows_testBit (data : Buf) (size w h n : Nat) (b : JsBuffer) (p k : Nat) :
    (((List.range n).foldl
        (fun b y => (List.range w).foldl (fun b x => andStep data size w h b y x) b)
        b).data p).testBit k
      = ((b.data p).testBit k
        || (List.range n).any fun y => (List.range w).any fun x =>
            decide (andPos size w h y x = p) && (andMaskVal data w h y x).testBit k) := by
  induction n with
  | zero => simp
  | succ n ih =>
    rw [List.range_succ, List.foldl_append, List.foldl_cons, List.foldl_nil,
      List.any_append]
    simp only [List.any_cons, List.any_nil, Bool.or_false]
    rw [foldl_range_or_testBit (fun b x => andStep data size w h b n x) w
      (fun x => andPos size w h n x) (fun x => andMaskVal data w h n x)
      (fun b j hj => rfl) _ p k]
    rw [ih, Bool.or_assoc]

theorem xor_fold_high_frame (data : Buf) (w p : Nat) (hp : w * w * 4 ≤ p)
    (b : JsBuffer) :
    ((List.range w).foldl
        (fun b y => (List.range w).foldl (fun b x => xorStep data w w b y x) b)
        b).data p = b.data p := by
  apply foldl_range_frame
  intro b2 y hy
  apply foldl_range_frame
  intro b3 x hx
  apply xorStep_frame
  right
  have h3 := xorPos_add_lt hx hy (Nat.le_refl 3)
  omega

theorem getDib_mask_testBit (data : Buf) (info : OutputInfo) (W x y : Nat)
    (hw : info.width = W) (hs : info.size = W * W * 4) (hx : x < W) (hy : y < W) :
    ((getDib data info).data
        (W * W * 4 + (W - 1 - y) * getRowStride W + x / 8)).testBit (7 - x % 8) = true
      ↔ (getColorPixel data x y W).a = 0 := by
  simp only [getDib, hw, hs]
  set p := W * W * 4 + (W - 1 - y) * getRowStride W + x / 8 with hp
  rw [and_rows_testBit, xor_fold_high_frame data W p (by omega)]
  simp only [bufAlloc_data, Nat.zero_testBit, Bool.false_or]
  rw [List.any_eq_true]
  constructor
  · rintro ⟨y', hy', hrow⟩
    rw [List.any_eq_true] at hrow
    obtain ⟨x', hxm, hcell⟩ := hrow
    rw [List.mem_range] at hy' hxm
    rw [Bool.and_eq_true] at hcell
    obtain ⟨hposEq, hbit⟩ := hcell
    have hpos : andPos (W * W * 4) W W y' x' = p := of_decide_eq_true hposEq
    unfold andMaskVal at hbit
    rw [andBitNum_mod hxm] at hbit
    by_cases ha : (getColorPixel data x' y' W).a > 0
    · rw [if_pos ha] at hbit
      simp at hbit
    · rw [if_neg ha] at hbit
      have h1 : ((1 : Nat) &&& 1) = 1 := rfl
      rw [h1, Nat.shiftLeft_eq, Nat.one_mul, Nat.testBit_two_pow] at hbit
      have hsk : 7 - x' % 8 = 7 - x % 8 := of_decide_eq_true hbit
      rw [andPos_eq hxm, hp] at hpos
      have hinj := stride_pos_inj (div8_lt_stride hxm) (div8_lt_stride hx)
        (show (W - y' - 1) * getRowStride W + x' / 8
            = (W - 1 - y) * getRowStride W + x / 8 from by omega)
      obtain ⟨hL, hr⟩ := hinj
      have hyy : y' = y := by omega
      have hxx : x' = x := by omega
      subst hyy
      subst hxx
      omega
  · intro ha0
    refine ⟨y, List.mem_range.mpr hy, ?_⟩
    rw [List.any_eq_true]
    refine ⟨x, List.mem_range.mpr hx, ?_⟩
    rw [Bool.and_eq_true]
    constructor
    · apply decide_eq_true
      rw [andPos_eq hx, hp]
      have hL : W - y - 1 = W - 1 - y := by omega
      rw [hL]
    · unfold andMaskVal
      rw [andBitNum_mod hx, if_neg (by omega)]
      have h1 : ((1 : Nat) &&& 1) = 1 := rfl
      rw [h1, Nat.shiftLeft_eq, Nat.one_mul, Nat.testBit_two_pow]
      exact decide_eq_true rfl

/-- C2: the and-mask bit of pixel (x, y) is 1 exactly for alpha = 0, is
located in mask row `W-1-y` at byte `x/8`, bit `7 - x%8`, after a row
stride of `W/8` bytes when `32 ∣ W` and otherwise `4*(W/32+1)` bytes
(stride 4 for width 16 and 8 for width 33). -/
theorem c2_and_mask_bit :
    (∀ (W x y : Nat) (data : Buf) (info : OutputInfo),
      info.width = W → info.size = W * W * 4 → x < W → y < W →
      (((getDib data info).data
          (W * W * 4 + (W - 1 - y) * getRowStride W + x / 8)).testBit (7 - x % 8) = true
        ↔ (getColorPixel data x y W).a = 0))
    ∧ (∀ W, getRowStride W = if W % 32 = 0 then W / 8 else 4 * (W / 32 + 1))
    ∧ getRowStride 16 = 4 ∧ getRowStride 33 = 8 := by
  refine ⟨?_, ?_, rfl, rfl⟩
  · intro W x y data info hw hs hx hy
    exact getDib_mask_testBit data info W x y hw hs hx hy
  · intro W
    rfl

/-- Witness for C2: a 1×1 fully transparent image has mask bit 1, and the
stride facts hold at widths 16 and 33. -/
theorem c2_and_mask_bit_witness :
    (0 : Nat) < 1
    ∧ ((((getDib (fun _ => 0) ex1TranspInfo).data 4).testBit 7 = true)
        ↔ (getColorPixel (fun _ => 0) 0 0 1).a = 0) :=
  ⟨Nat.zero_lt_one,
    c2_and_mask_bit.1 1 0 0 (fun _ => 0) ex1TranspInfo rfl rfl
      Nat.zero_lt_one Nat.zero_lt_one⟩

/-! ### Sizes and the assembler -/

@[simp] theorem bufferConcat_size (l : List JsBuffer) (n : Nat) :
    (bufferConcat l n).size = n := rfl

theorem getHeader_size (n : Nat) : (getHeader n).size = 6 := rfl

theorem getDir_size (info : OutputInfo) (offset : Nat) :
    (getDir info offset).size = 16 := rfl

theorem getBmpInfoHeader_size (info : OutputInfo) :
    (getBmpInfoHeader info).size = 40 := rfl

theorem getDib_size (data : Buf) (info : OutputInfo) :
    (getDib data info).size = info.size + getRowStride info.width * info.width := by
  simp only [getDib]
  have hxor : ∀ (b : JsBuffer) (y : Nat),
      ((List.range info.width).foldl
        (fun b x => xorStep data info.width info.width b y x) b).size = b.size :=
    fun b y => foldl_size (fun b x => xorStep data info.width info.width b y x)
      (List.range info.width) (fun b2 x => rfl) b
  have hand : ∀ (b : JsBuffer) (y : Nat),
      ((List.range info.width).foldl
        (fun b x => andStep data info.size info.width info.width b y x) b).size = b.size :=
    fun b y => foldl_size (fun b x => andStep data info.size info.width info.width b y x)
      (List.range info.width) (fun b2 x => rfl) b
  rw [foldl_size _ _ hand, foldl_size _ _ hxor]
  rfl

theorem sum_map_const_add {α : Type} (l : List α) (c : Nat) (f : α → Nat) :
    (l.map fun a => c + f a).sum = c * l.length + (l.map f).sum := by
  induction l with
  | nil => simp
  | cons a t ih =>
    simp only [List.map_cons, List.sum_cons, List.length_cons, ih]
    ring

theorem icoLoop_len (images : List (Buf × OutputInfo)) (len offset : Nat) :
    (icoLoop images len offset).2.2
      = len + (images.map fun q => 16 + 40 + (getDib q.1 q.2).size).sum := by
  induction images generalizing len offset with
  | nil => simp [icoLoop]
  | cons q rest ih =>
    obtain ⟨data, info⟩ := q
    simp only [icoLoop, List.map_cons, List.sum_cons]
    rw [ih, getDir_size, getBmpInfoHeader_size]
    omega

theorem icoLoop_dirs_sizes (images : List (Buf × OutputInfo)) (len offset : Nat) :
    (((icoLoop images len offset).1).map JsBuffer.size).sum = 16 * images.length := by
  induction images generalizing len offset with
  | nil => simp [icoLoop]
  | cons q rest ih =>
    obtain ⟨data, info⟩ := q
    simp only [icoLoop, List.map_cons, List.sum_cons, List.length_cons]
    rw [ih, getDir_size]
    ring

theorem icoLoop_datas_sizes (images : List (Buf × OutputInfo)) (len offset : Nat) :
    (((icoLoop images len offset).2.1).map JsBuffer.size).sum
      = (images.map fun q => 40 + (getDib q.1 q.2).size).sum := by
  induction images generalizing len offset with
  | nil => simp [icoLoop]
  | cons q rest ih =>
    obtain ⟨data, info⟩ := q
    simp only [icoLoop, List.map_cons, List.sum_cons]
    rw [ih, getBmpInfoHeader_size]
    omega

/-- C3: the container size is the 6-byte header plus 16 bytes of directory
per image plus, per image, 40 info-header bytes, `W*W*4` color-map bytes and
`getRowStride W * W` mask bytes; the declared `Buffer.concat` length equals
the sum of the lengths of the concatenated parts; each `getDib` output has
length `rawSize + maskSize`. -/
theorem c3_total_length :
    ∀ images : List (Buf × OutputInfo),
      images.length = 4 →
      (∀ q ∈ images, q.2.size = q.2.width * q.2.width * 4) →
      (imagesToIco images).size
          = 6 + 16 * 4 + (images.map fun q =>
              40 + q.2.width * q.2.width * 4 + getRowStride q.2.width * q.2.width).sum
      ∧ (imagesToIco images).size
          = (((getHeader images.length :: (icoLoop images 6 (6 + 16 * images.length)).1)
              ++ (icoLoop images 6 (6 + 16 * images.length)).2.1).map JsBuffer.size).sum
      ∧ ∀ q ∈ images, (getDib q.1 q.2).size
          = q.2.width * q.2.width * 4 + getRowStride q.2.width * q.2.width := by
  intro images h4 hsz
  have hdib : ∀ q ∈ images, (getDib q.1 q.2).size
      = q.2.width * q.2.width * 4 + getRowStride q.2.width * q.2.width := by
    intro q hq
    rw [getDib_size, hsz q hq]
  refine ⟨?_, ?_, hdib⟩
  · simp only [imagesToIco, bufferConcat_size, getHeader_size]
    rw [icoLoop_len]
    have hmap : (images.map fun q => 16 + 40 + (getDib q.1 q.2).size)
        = images.map fun q => 16 + (40 + q.2.width * q.2.width * 4
            + getRowStride q.2.width * q.2.width) := by
      apply List.map_congr_left
      intro q hq
      rw [hdib q hq]
      omega
    rw [hmap, sum_map_const_add images 16 _, h4]
    omega
  · simp only [imagesToIco, bufferConcat_size, getHeader_size, List.map_cons,
      List.map_append, List.sum_cons, List.sum_append]
    rw [icoLoop_len, icoLoop_dirs_sizes, icoLoop_datas_sizes]
    have hmap2 : (images.map fun q => 16 + 40 + (getDib q.1 q.2).size)
        = images.map fun q => 16 + (40 + (getDib q.1 q.2).size) := by
      apply List.map_congr_left
      intro q hq
      omega
    rw [hmap2, sum_map_const_add images 16 _]
    omega

/-- Witness for C3 at a list of four 1×1 images. -/
theorem c3_total_length_witness :
    ([(ex1Data, ex1Info), (ex1Data, ex1Info), (ex1Data, ex1Info),
        (ex1Data, ex1Info)] : List (Buf × OutputInfo)).length = 4
    ∧ (imagesToIco [(ex1Data, ex1Info), (ex1Data, ex1Info), (ex1Data, ex1Info),
        (ex1Data, ex1Info)]).size
      = 6 + 16 * 4 + ([(ex1Data, ex1Info), (ex1Data, ex1Info), (ex1Data, ex1Info),
          (ex1Data, ex1Info)].map fun q =>
            40 + q.2.width * q.2.width * 4
              + getRowStride q.2.width * q.2.width).sum :=
  ⟨rfl,
    (c3_total_length [(ex1Data, ex1Info), (ex1Data, ex1Info), (ex1Data, ex1Info),
        (ex1Data, ex1Info)] rfl
      (fun q hq => by
        have hq' : q = (ex1Data, ex1Info) := by simpa using hq
        subst hq'
        rfl)).1⟩

theorem icoLoop_dirs_eq (images : List (Buf × OutputInfo)) (len offset : Nat) :
    (icoLoop images len offset).1
      = List.zipWith (fun q o => getDir q.2 o) images (icoOffsets images offset) := by
  induction images generalizing len offset with
  | nil => rfl
  | cons q rest ih =>
    obtain ⟨data, info⟩ := q
    simp only [icoLoop, icoOffsets, List.zipWith_cons_cons]
    rw [ih]

theorem icoOffsets_head (images : List (Buf × OutputInfo)) (offset : Nat) :
    (icoOffsets images offset).head? = images.head?.map fun _ => offset := by
  cases images with
  | nil => rfl
  | cons q rest =>
    obtain ⟨data, info⟩ := q
    rfl

theorem icoOffsets_chain_eq (images : List (Buf × OutputInfo)) (offset : Nat) :
    List.Chain' (fun a b => a.2 + 40 + (getDib a.1.1 a.1.2).size = b.2)
      (images.zip (icoOffsets images offset)) := by
  induction images generalizing offset with
  | nil => simp [icoOffsets]
  | cons q rest ih =>
    obtain ⟨data, info⟩ := q
    cases rest with
    | nil => simp [icoOffsets]
    | cons q2 rest2 =>
      obtain ⟨d2, i2⟩ := q2
      simp only [icoOffsets, List.zip_cons_cons]
      rw [List.chain'_cons]
      constructor
      · rfl
      · exact ih _
  
theorem icoOffsets_lb (images : List (Buf × OutputInfo)) (offset : Nat) :
    ∀ o ∈ icoOffsets images offset, offset ≤ o := by
  induction images generalizing offset with
  | nil => intro o ho; cases ho
  | cons q rest ih =>
    obtain ⟨data, info⟩ := q
    intro o ho
    rcases List.mem_cons.mp ho with h | h
    · omega
    · have := ih _ o h
      omega

theorem icoOffsets_pairwise (images : List (Buf × OutputInfo)) (offset : Nat) :
    List.Pairwise (fun a b => a < b) (icoOffsets images offset) := by
  induction images generalizing offset with
  | nil => exact List.Pairwise.nil
  | cons q rest ih =>
    obtain ⟨data, info⟩ := q
    refine List.Pairwise.cons ?_ (ih _)
    intro o ho
    have hlb := icoOffsets_lb rest
      (offset + (getBmpInfoHeader info).size + (getDib data info).size) o ho
    have h40 : (getBmpInfoHeader info).size = 40 := rfl
    omega

/-- C5: the assembler hands `getDir` the offset `6 + 16*N` for the first
image and advances by `40 + payload` for each following image, so the
directory offsets are exactly `icoOffsets`, each successive offset equals
the previous plus 40 plus the previous dib length (spans abut, never
overlap), and the offsets are strictly increasing. -/
theorem c5_offsets :
    ∀ images : List (Buf × OutputInfo),
      (icoLoop images 6 (6 + 16 * images.length)).1
        = List.zipWith (fun q o => getDir q.2 o) images
            (icoOffsets images (6 + 16 * images.length))
      ∧ (icoOffsets images (6 + 16 * images.length)).head?
          = images.head?.map (fun _ => 6 + 16 * images.length)
      ∧ List.Chain' (fun a b => a.2 + 40 + (getDib a.1.1 a.1.2).size = b.2)
          (images.zip (icoOffsets images (6 + 16 * images.length)))
      ∧ List.Pairwise (fun a b => a < b) (icoOffsets images (6 + 16 * images.length)) :=
  fun images =>
    ⟨icoLoop_dirs_eq images 6 _, icoOffsets_head images _,
      icoOffsets_chain_eq images _, icoOffsets_pairwise images _⟩

/-! ### Directory entries and the bitmap info header -/

/-- Little-endian reconstruction of the four bytes stored at `pos`. -/
def decode32 (b : JsBuffer) (pos : Nat) : Nat :=
  b.data pos + 256 * b.data (pos + 1) + 65536 * b.data (pos + 2)
    + 16777216 * b.data (pos + 3)

/-- C4: `getDir` builds a 16-byte record whose width and height bytes store
the width (or 0 for width 256 and above), color count 0, reserved 0, planes
1 (16-bit LE), bit count 32 (16-bit LE), data size `rawSize + 40` (32-bit
LE, excluding the appended mask bytes), and the given file offset (32-bit
LE). -/
theorem c4_directory_entry :
    ∀ (info : OutputInfo) (offset : Nat),
      info.size + 40 < 4294967296 → offset < 4294967296 →
      (getDir info offset).size = 16
      ∧ (getDir info offset).data 0 = (if info.width < 256 then info.width else 0)
      ∧ (getDir info offset).data 1 = (getDir info offset).data 0
      ∧ (getDir info offset).data 2 = 0
      ∧ (getDir info offset).data 3 = 0
      ∧ (getDir info offset).data 4 = 1 ∧ (getDir info offset).data 5 = 0
      ∧ (getDir info offset).data 6 = 32 ∧ (getDir info offset).data 7 = 0
      ∧ decode32 (getDir info offset) 8 = info.size + 40
      ∧ decode32 (getDir info offset) 12 = offset := by
  intro info offset h1 h2
  have hb : ∀ i : Nat, (getDir info offset).data i
      = if i = 15 then (offset >>> 24) % 256
        else if i = 14 then (offset >>> 16) % 256
        else if i = 13 then (offset >>> 8) % 256
        else if i = 12 then offset % 256
        else if i = 11 then ((info.size + 40) >>> 24) % 256
        else if i = 10 then ((info.size + 40) >>> 16) % 256
        else if i = 9 then ((info.size + 40) >>> 8) % 256
        else if i = 8 then (info.size + 40) % 256
        else if i = 7 then (32 >>> 8) % 256
        else if i = 6 then 32 % 256
        else if i = 5 then (1 >>> 8) % 256
        else if i = 4 then 1 % 256
        else if i = 3 then 0
        else if i = 2 then 0
        else if i = 1 then (if info.width ≥ 256 then 0 else info.width)
        else if i = 0 then (if info.width ≥ 256 then 0 else info.width)
        else 0 := by
    intro i
    simp only [getDir, writeUInt32LE, writeUInt16LE, writeUInt8_data, bufAlloc_data]
  refine ⟨rfl, ?_, ?_, ?_, ?_, ?_, ?_, ?_, ?_, ?_, ?_⟩
  · rw [hb 0]
    norm_num
    split_ifs <;> omega
  · rw [hb 1, hb 0]
    norm_num
  · rw [hb 2]
    norm_num
  · rw [hb 3]
    norm_num
  · rw [hb 4]
    norm_num
  · rw [hb 5]
    norm_num [Nat.shiftRight_eq_div_pow]
  · rw [hb 6]
    norm_num
  · rw [hb 7]
    norm_num [Nat.shiftRight_eq_div_pow]
  · unfold decode32
    rw [hb 8, hb 9, hb 10, hb 11]
    norm_num [Nat.shiftRight_eq_div_pow]
    omega
  · unfold decode32
    rw [hb 12, hb 13, hb 14, hb 15]
    norm_num [Nat.shiftRight_eq_div_pow]
    omega

/-- Witness for C4 at a 48-wide and a 256-wide example entry. -/
theorem c4_directory_entry_witness :
    ex48Info.size + 40 < 4294967296 ∧ (70 : Nat) < 4294967296
    ∧ (getDir ex48Info 70).data 0 = (if ex48Info.width < 256 then ex48Info.width else 0)
    ∧ (getDir ex256Info 70).data 0 = (if ex256Info.width < 256 then ex256Info.width else 0) :=
  ⟨by norm_num [ex48Info], by norm_num,
    (c4_directory_entry ex48Info 70 (by norm_num [ex48Info]) (by norm_num)).2.1,
    (c4_directory_entry ex256Info 70 (by norm_num [ex256Info]) (by norm_num)).2.1⟩

/-- C8: `getBmpInfoHeader` builds a 40-byte record with header size 40,
width, doubled height `width*2`, planes 1, bit count 32 and all remaining
fields zero, all little-endian. -/
theorem c8_bmp_info_header :
    ∀ info : OutputInfo, info.width * 2 < 2147483648 →
      (getBmpInfoHeader info).size = 40
      ∧ decode32 (getBmpInfoHeader info) 0 = 40
      ∧ decode32 (getBmpInfoHeader info) 4 = info.width
      ∧ decode32 (getBmpInfoHeader info) 8 = info.width * 2
      ∧ (getBmpInfoHeader info).data 12 = 1 ∧ (getBmpInfoHeader info).data 13 = 0
      ∧ (getBmpInfoHeader info).data 14 = 32 ∧ (getBmpInfoHeader info).data 15 = 0
      ∧ decode32 (getBmpInfoHeader info) 16 = 0
      ∧ decode32 (getBmpInfoHeader info) 20 = 0
      ∧ decode32 (getBmpInfoHeader info) 24 = 0
      ∧ decode32 (getBmpInfoHeader info) 28 = 0
      ∧ decode32 (getBmpInfoHeader info) 32 = 0
      ∧ decode32 (getBmpInfoHeader info) 36 = 0 := by
  intro info h1
  have hb : ∀ i : Nat, (getBmpInfoHeader info).data i
      = if i = 39 then 0 else if i = 38 then 0 else if i = 37 then 0
        else if i = 36 then 0 else if i = 35 then 0 else if i = 34 then 0
        else if i = 33 then 0 else if i = 32 then 0 else if i = 31 then 0
        else if i = 30 then 0 else if i = 29 then 0 else if i = 28 then 0
        else if i = 27 then 0 else if i = 26 then 0 else if i = 25 then 0
        else if i = 24 then 0 else if i = 23 then 0 else if i = 22 then 0
        else if i = 21 then 0 else if i = 20 then 0 else if i = 19 then 0
        else if i = 18 then 0 else if i = 17 then 0 else if i = 16 then 0
        else if i = 15 then (32 >>> 8) % 256 else if i = 14 then 32 % 256
        else if i = 13 then (1 >>> 8) % 256 else if i = 12 then 1 % 256
        else if i = 11 then ((info.width * 2) >>> 24) % 256
        else if i = 10 then ((info.width * 2) >>> 16) % 256
        else if i = 9 then ((info.width * 2) >>> 8) % 256
        else if i = 8 then (info.width * 2) % 256
        else if i = 7 then (info.width >>> 24) % 256
        else if i = 6 then (info.width >>> 16) % 256
        else if i = 5 then (info.width >>> 8) % 256
        else if i = 4 then info.width % 256
        else if i = 3 then (40 >>> 24) % 256
        else if i = 2 then (40 >>> 16) % 256
        else if i = 1 then (40 >>> 8) % 256
        else if i = 0 then 40 % 256
        else 0 := by
    intro i
    simp only [getBmpInfoHeader, writeInt32LE, writeUInt32LE, writeUInt16LE,
      writeUInt8_data, bufAlloc_data]
    norm_num
  refine ⟨rfl, ?_, ?_, ?_, ?_, ?_, ?_, ?_, ?_, ?_, ?_, ?_, ?_, ?_⟩
  · unfold decode32
    rw [hb 0, hb 1, hb 2, hb 3]
    norm_num [Nat.shiftRight_eq_div_pow]
  · unfold decode32
    rw [hb 4, hb 5, hb 6, hb 7]
    norm_num [Nat.shiftRight_eq_div_pow]
    omega
  · unfold decode32
    rw [hb 8, hb 9, hb 10, hb 11]
    norm_num [Nat.shiftRight_eq_div_pow]
    omega
  · rw [hb 12]
    norm_num
  · rw [hb 13]
    norm_num [Nat.shiftRight_eq_div_pow]
  · rw [hb 14]
    norm_num
  · rw [hb 15]
    norm_num [Nat.shiftRight_eq_div_pow]
  · unfold decode32
    rw [hb 16, hb 17, hb 18, hb 19]
    norm_num
  · unfold decode32
    rw [hb 20, hb 21, hb 22, hb 23]
    norm_num
  · unfold decode32
    rw [hb 24, hb 25, hb 26, hb 27]
    norm_num
  · unfold decode32
    rw [hb 28, hb 29, hb 30, hb 31]
    norm_num
  · unfold decode32
    rw [hb 32, hb 33, hb 34, hb 35]
    norm_num
  · unfold decode32
    rw [hb 36, hb 37, hb 38, hb 39]
    norm_num

/-- Witness for C8 at the 48-wide example. -/
theorem c8_bmp_info_header_witness :
    ex48Info.width * 2 < 2147483648
    ∧ decode32 (getBmpInfoHeader ex48Info) 8 = ex48Info.width * 2 :=
  ⟨by norm_num [ex48Info], (c8_bmp_info_header ex48Info (by norm_num [ex48Info])).2.2.2.1⟩

/-! ### toIco: validation, image list, determinism, bounds -/

/-- C6: for a square png source, the encoded image list is
`[48, 32, 16, canonical]` where the canonical image is the source itself at
width 256 and otherwise its cubic 256×256 resample, each smaller entry being
a cubic resample of the canonical image; this list is exactly what is handed
to `imagesToIco`, fixing directory and payload order. -/
theorem c6_image_list :
    ∀ (image : Sharp) (info : OutputInfo) (raster : Sharp → Buf × OutputInfo)
      (c : Sharp),
      info.format = "png" → info.width = info.height →
      c = (if info.width ≠ 256 then Sharp.resize image 256 256 cubicKernel else image) →
      toIcoImages image info = Except.ok
        [Sharp.resize c 48 48 cubicKernel, Sharp.resize c 32 32 cubicKernel,
          Sharp.resize c 16 16 cubicKernel, c]
      ∧ toIco raster image info = Except.ok (imagesToIco
          ([Sharp.resize c 48 48 cubicKernel, Sharp.resize c 32 32 cubicKernel,
            Sharp.resize c 16 16 cubicKernel, c].map raster)) := by
  intro image info raster c hfmt hsq hc
  subst hc
  have h1 : toIcoImages image info = Except.ok
      [Sharp.resize (if info.width ≠ 256 then Sharp.resize image 256 256 cubicKernel
          else image) 48 48 cubicKernel,
        Sharp.resize (if info.width ≠ 256 then Sharp.resize image 256 256 cubicKernel
          else image) 32 32 cubicKernel,
        Sharp.resize (if info.width ≠ 256 then Sharp.resize image 256 256 cubicKernel
          else image) 16 16 cubicKernel,
        (if info.width ≠ 256 then Sharp.resize image 256 256 cubicKernel else image)] := by
    simp only [toIcoImages]
    rw [if_neg (by simp [hfmt, hsq])]
    rfl
  refine ⟨h1, ?_⟩
  unfold toIco
  rw [h1]

/-- Witness for C6 at a 256-wide source. -/
theorem c6_image_list_witness :
    ex256Info.format = "png" ∧ ex256Info.width = ex256Info.height
    ∧ toIcoImages (Sharp.src 0) ex256Info = Except.ok
        [Sharp.resize (Sharp.src 0) 48 48 cubicKernel,
          Sharp.resize (Sharp.src 0) 32 32 cubicKernel,
          Sharp.resize (Sharp.src 0) 16 16 cubicKernel, Sharp.src 0] :=
  ⟨rfl, rfl,
    (c6_image_list (Sharp.src 0) ex256Info (fun _ => (ex1Data, ex1Info))
      (Sharp.src 0) rfl rfl (by decide)).1⟩

/-- C7: for a non-png or non-square source, `toIco` fails with the fixed
`err` before any encoding, producing no buffer. -/
theorem c7_invalid_input :
    ∀ (image : Sharp) (info : OutputInfo) (raster : Sharp → Buf × OutputInfo),
      info.format ≠ "png" ∨ info.width ≠ info.height →
      toIcoImages image info = Except.error err
      ∧ toIco raster image info = Except.error err := by
  intro image info raster h
  have h1 : toIcoImages image info = Except.error err := by
    simp only [toIcoImages]
    rw [if_pos h]
  refine ⟨h1, ?_⟩
  unfold toIco
  rw [h1]

/-- Witness for C7 at a 10×20 non-square png input. -/
theorem c7_invalid_input_witness :
    ((ex10x20Info.format ≠ "png" ∨ ex10x20Info.width ≠ ex10x20Info.height)
      ∧ toIco (fun _ => (ex1Data, ex1Info)) (Sharp.src 0) ex10x20Info
          = Except.error err) :=
  ⟨Or.inr (by decide),
    (c7_invalid_input (Sharp.src 0) ex10x20Info (fun _ => (ex1Data, ex1Info))
      (Or.inr (by decide))).2⟩

/-- C9: the conversion is a pure function of the input image, its metadata
and the external raster results: equal inputs give byte-identical output. -/
theorem c9_deterministic :
    ∀ (r1 r2 : Sharp → Buf × OutputInfo) (img1 img2 : Sharp)
      (inf1 inf2 : OutputInfo),
      r1 = r2 → img1 = img2 → inf1 = inf2 →
      toIco r1 img1 inf1 = toIco r2 img2 inf2 := by
  intro r1 r2 img1 img2 inf1 inf2 h1 h2 h3
  subst h1
  subst h2
  subst h3
  rfl

/-- Witness for C9 at a concrete run. -/
theorem c9_deterministic_witness :
    (Sharp.src 0) = (Sharp.src 0)
    ∧ toIco (fun _ => (ex1Data, ex1Info)) (Sharp.src 0) ex1Info
        = toIco (fun _ => (ex1Data, ex1Info)) (Sharp.src 0) ex1Info :=
  ⟨rfl, c9_deterministic _ _ _ _ _ _ rfl rfl rfl⟩

/-- C10: under the RGBA8 precondition, all positions read or written by
`getDib` are in bounds: pixel reads stay below `W*W*4`, color-map writes
stay within `[0, W*W*4 - 4]`, and mask accesses stay within
`[W*W*4, W*W*4 + rowStride*W)`. -/
theorem c10_bounds :
    ∀ W x y : Nat, 1 ≤ W → x < W → y < W →
      pxPos x y W + 3 < W * W * 4
      ∧ xorPos W y W x + 4 ≤ W * W * 4
      ∧ W * W * 4 ≤ andPos (W * W * 4) W W y x
      ∧ andPos (W * W * 4) W W y x < W * W * 4 + getRowStride W * W := by
  intro W x y hW hx hy
  refine ⟨?_, ?_, andPos_ge _ _ _ _ _, ?_⟩
  · unfold pxPos
    have h1 := rowBase_le hy
    omega
  · have h2 := xorPos_add_lt hx hy (Nat.le_refl 3)
    omega
  · rw [andPos_eq hx]
    have hs := div8_lt_stride hx
    have h3 := @mul_row_le (W - y - 1) W (getRowStride W) (by omega)
    have h4 : W * getRowStride W = getRowStride W * W := Nat.mul_comm W (getRowStride W)
    omega

/-- Witness for C10 at a 1×1 image. -/
theorem c10_bounds_witness :
    (1 : Nat) ≤ 1 ∧ pxPos 0 0 1 + 3 < 1 * 1 * 4 :=
  ⟨Nat.le_refl 1,
    (c10_bounds 1 0 0 (Nat.le_refl 1) Nat.zero_lt_one Nat.zero_lt_one).1⟩

end SharpIco
